import Mathlib

/-!
Verification of the `registry-client` Go library (`eznix86/registry-client`)
against its natural-language specification.

The development shallowly embeds the relevant parts of the source:

* `client.go` — the retry/backoff engine (`Client.doWithRetry`,
  `calculateBackoff`, `parseRetryAfter`, `getRetryDelay`,
  `Client.maxAttempts`, `Client.backoff`, `isRetryableStatus`).
  Go `time.Duration` values are `int64` nanosecond counts; they are
  modelled as `Int` with explicit two's-complement wrapping (`wrap64`)
  at each operation where the Go code can overflow.
* `registry.go` — the manifest decoder (`ParseManifest`) and the OCI
  `Link`-header pagination codec (`parseLinkHeader`).
* `github.go` — the GitHub pagination codec (`parseGitHubLinkHeader`,
  `extractLinkURL`, `parseGitHubLinkURL`), the version-resolution
  protocol (`findPackageVersionID`) and the management-plane request
  builders with their authentication headers.

HTTP transport, `context.Context`, logging and body management are
external collaborators; attempt outcomes are passed to the retry engine
as explicit lists, and the standard-library helpers the code calls
(`strconv.ParseInt`, `url.Parse` query lookup, `fmt.Sscanf("%d")`,
`strings` functions, `base64.StdEncoding`) are given executable models
next to the functions that use them.
-/

set_option maxRecDepth 100000

namespace RegistryClient

/-- Two's-complement wrap of an unbounded integer into the signed 64-bit
range, modelling Go `int64` overflow (Go integers wrap silently). -/
def wrap64 (x : Int) : Int := (x + 2 ^ 63) % 2 ^ 64 - 2 ^ 63

/-- Nanoseconds in `time.Millisecond`. -/
def nsPerMillisecond : Int := 1000000

/-- Nanoseconds in `time.Second`. -/
def nsPerSecond : Int := 1000000000

/-- Retry-relevant configuration of `registryclient.Client` (client.go):
`MaxAttempts int` and `RetryBackoff time.Duration` (nanoseconds). -/
structure Client where
  MaxAttempts : Int
  RetryBackoff : Int
deriving Repr, DecidableEq

/-- `Client.maxAttempts` (client.go lines 149-155): at least 1. -/
def Client.maxAttempts (c : Client) : Int :=
  if c.MaxAttempts ≤ 0 then 1 else c.MaxAttempts

/-- `Client.backoff` (client.go lines 157-163): default 100ms. -/
def Client.backoff (c : Client) : Int :=
  if c.RetryBackoff ≤ 0 then 100 * nsPerMillisecond else c.RetryBackoff

/-- `isRetryableStatus` (client.go lines 165-168): codes ≥ 500 or 429. -/
def isRetryableStatus (statusCode : Int) : Bool :=
  statusCode ≥ 500 || statusCode == 429

/-- Go `1 << exp` evaluated at type `int64` (the shift inside
`calculateBackoff`): `2 ^ exp` wrapped; `exp = 63` wraps to the minimum
`int64` and `exp ≥ 64` wraps to `0`. -/
def goShl1 (exp : Nat) : Int := wrap64 (2 ^ exp)

/-- `calculateBackoff` (client.go lines 170-174):
`baseBackoff * time.Duration(1<<max(attempt-1, 0))` with `int64`
wrap-around on both the shift and the product. -/
def calculateBackoff (attempt : Int) (baseBackoff : Int) : Int :=
  wrap64 (baseBackoff * goShl1 (max (attempt - 1) 0).toNat)

/-- Model of Go `strconv.ParseInt(s, 10, 64)` restricted to the success
case: an optional sign followed by one or more decimal digits, value
within the signed 64-bit range; everything else is `none` (an error in
Go, which the caller treats as "not seconds"). -/
def goParseInt64 (s : String) : Option Int :=
  let cs := s.toList
  let signAndDigits : Bool × List Char :=
    match cs with
    | '-' :: rest => (true, rest)
    | '+' :: rest => (false, rest)
    | _ => (false, cs)
  let digits := signAndDigits.2
  if digits.isEmpty then none
  else if digits.all (·.isDigit) then
    let n : Int := digits.foldl (fun acc c => acc * 10 + ((c.toNat : Int) - 48)) 0
    let v : Int := if signAndDigits.1 then -n else n
    if v < -(2 ^ 63) ∨ v > 2 ^ 63 - 1 then none else some v
  else none

/-- Headers of an HTTP response that the retry engine inspects: the
`Retry-After` header text, and the result of `http.ParseTime` on that
text (`none` when the text is not a valid HTTP date — in particular for
every purely numeric string), as Unix nanoseconds. -/
structure RespHeaders where
  retryAfter : String
  retryAfterDate : Option Int
deriving Repr, DecidableEq

/-- The HTTP-date branch of `parseRetryAfter`: `time.Until(t)` must be
strictly positive, otherwise no override. `now` is the current time in
Unix nanoseconds. -/
def httpDateDelay (d : Option Int) (now : Int) : Int :=
  match d with
  | some t => if t - now > 0 then t - now else 0
  | none => 0

/-- `parseRetryAfter` (client.go lines 176-198). Empty header → 0;
integer seconds > 0 → `time.Duration(seconds) * time.Second` (an `int64`
product, which wraps); otherwise the HTTP-date branch. -/
def parseRetryAfter (resp : RespHeaders) (now : Int) : Int :=
  if resp.retryAfter = "" then 0
  else
    match goParseInt64 resp.retryAfter with
    | some seconds =>
      if seconds > 0 then wrap64 (seconds * nsPerSecond)
      else httpDateDelay resp.retryAfterDate now
    | none => httpDateDelay resp.retryAfterDate now

/-- `getRetryDelay` (client.go lines 118-126): prefer a positive
`Retry-After` override from the last response, else exponential
backoff. -/
def getRetryDelay (resp : Option RespHeaders) (now : Int) (attempt : Int)
    (backoff : Int) : Int :=
  match resp with
  | some r =>
    if parseRetryAfter r now > 0 then parseRetryAfter r now
    else calculateBackoff attempt backoff
  | none => calculateBackoff attempt backoff

/-- An HTTP response as seen by the retry engine: its status code and
body (enough to tell distinct responses apart). -/
structure HttpResponse where
  statusCode : Int
  body : String
deriving Repr, DecidableEq

/-- Outcome of one `c.Client.Do(req)` transport attempt inside
`doWithRetry`: either a transport-level error (connection failure,
identified by a numeric id) or a response. -/
inductive AttemptOutcome where
  | transportErr (e : Nat)
  | response (r : HttpResponse)
deriving Repr, DecidableEq

/-- The `lastErr` recorded by `updateRetryState` (client.go lines
99-111): a transport error, or the synthetic
`"retryable status code: %d"` error for a retryable response. -/
inductive ErrCause where
  | transport (e : Nat)
  | retryStatus (s : Int)
deriving Repr, DecidableEq

/-- The terminal outcome of `doWithRetry`: a response returned with a
nil error, or a propagated error wrapping the last cause. -/
inductive RetryResult where
  | ok (r : HttpResponse)
  | fail (cause : ErrCause)
deriving Repr, DecidableEq

/-- The attempt loop of `doWithRetry` (client.go lines 72-89) over the
remaining attempt outcomes, carrying `retryState` (`lastResp`,
`lastErr`).  A non-retryable response returns immediately
(`shouldReturnImmediately`); on exhaustion `handleMaxRetriesExceeded`
(lines 137-147) returns the recorded response if there is one, else
propagates the last error (the dummy `transport 0` covers the
impossible zero-attempt start, since `maxAttempts ≥ 1`). -/
def retryLoop : List AttemptOutcome → Option HttpResponse → Option ErrCause →
    RetryResult
  | [], lastResp, lastErr =>
    match lastResp with
    | some r => .ok r
    | none => .fail (lastErr.getD (.transport 0))
  | o :: rest, lastResp, _lastErr =>
    match o with
    | .response r =>
      if isRetryableStatus r.statusCode then
        retryLoop rest (some r) (some (.retryStatus r.statusCode))
      else .ok r
    | .transportErr e => retryLoop rest lastResp (some (.transport e))

/-- `Client.doWithRetry` (client.go lines 66-89), with the transport
modelled as the list of outcomes the successive attempts would observe;
exactly `maxAttempts` of them can be consumed. -/
def doWithRetry (c : Client) (outcomes : List AttemptOutcome) : RetryResult :=
  retryLoop (outcomes.take c.maxAttempts.toNat) none none

/-! ### String and URL helpers

Executable models of the Go standard-library functions called by the
pagination codecs: `strings.Trim`, `strings.Contains`, `strings.Index`
(for a single-character needle), `fmt.Sscanf("%d")`, and the
`url.Parse(...).Query().Get(key)` pipeline (split the query string on
`&`, split each pair at the first `=`, percent/plus-decode, return the
first value for the key; pairs containing `;` or with invalid escapes
are skipped, as `url.ParseQuery` skips them). -/

/-- Go `strings.Trim(s, cutset)`: remove all leading and trailing
characters contained in `cutset`. -/
def goTrim (s : String) (cutset : List Char) : String :=
  String.mk (((s.toList.dropWhile (cutset.contains ·)).reverse.dropWhile
    (cutset.contains ·)).reverse)

/-- Go `strings.HasPrefix`. -/
def goHasPrefixStr (s pre : String) : Bool :=
  pre.toList.isPrefixOf s.toList

/-- Go `strings.TrimSpace`. -/
def goTrimSpace (s : String) : String :=
  String.mk (((s.toList.dropWhile (·.isWhitespace)).reverse.dropWhile
    (·.isWhitespace)).reverse)

/-- Substring search on character lists (Go `strings.Contains`). -/
def listContainsSub (needle : List Char) : List Char → Bool
  | [] => needle.isEmpty
  | h :: t => needle.isPrefixOf (h :: t) || listContainsSub needle t

/-- Go `strings.Contains(s, sub)`. -/
def goContains (s sub : String) : Bool :=
  listContainsSub sub.toList s.toList

/-- Go `strings.Index(s, string(c))` for a single-character needle:
index of the first occurrence, `-1` if absent. -/
def goIndexOfChar (s : String) (c : Char) : Int :=
  match s.toList.findIdx? (· = c) with
  | some i => (i : Int)
  | none => -1

/-- Value of a hexadecimal digit. -/
def hexDigitVal : Char → Option Nat
  | c =>
    if c.isDigit then some (c.toNat - 48)
    else if 'a' ≤ c ∧ c ≤ 'f' then some (c.toNat - 97 + 10)
    else if 'A' ≤ c ∧ c ≤ 'F' then some (c.toNat - 65 + 10)
    else none

/-- Percent/plus decoding of a query component (Go
`url.QueryUnescape`); `none` when a `%` escape is malformed.  Decoded
bytes are kept as single characters (the inputs relevant here are
ASCII). -/
def queryUnescape : List Char → Option (List Char)
  | [] => some []
  | '%' :: a :: b :: rest =>
    match hexDigitVal a, hexDigitVal b with
    | some ha, some hb =>
      (queryUnescape rest).map (fun t => Char.ofNat (16 * ha + hb) :: t)
    | _, _ => none
  | '%' :: _ => none
  | '+' :: rest => (queryUnescape rest).map (fun t => ' ' :: t)
  | c :: rest => (queryUnescape rest).map (fun t => c :: t)

/-- Split a character list at the first occurrence of `sep`; the
second component is `none` when `sep` does not occur. -/
def splitAtFirst (sep : Char) : List Char → List Char × Option (List Char)
  | [] => ([], none)
  | c :: rest =>
    if c = sep then ([], some rest)
    else
      let r := splitAtFirst sep rest
      (c :: r.1, r.2)

/-- One `key=value` segment of a query string, decoded; `none` when the
segment is skipped (`url.ParseQuery` skips empty segments, segments
containing `;`, and segments with invalid escapes). -/
def parseQuerySegment (seg : List Char) : Option (String × String) :=
  if seg.isEmpty then none
  else if seg.contains ';' then none
  else
    let kv := splitAtFirst '=' seg
    match queryUnescape kv.1, queryUnescape (kv.2.getD []) with
    | some k, some v => some (String.mk k, String.mk v)
    | _, _ => none

/-- Split a character list on every occurrence of `sep`
(Go `strings.Split` with a one-character separator). -/
def splitOnChar (sep : Char) : List Char → List (List Char)
  | [] => [[]]
  | c :: rest =>
    if c = sep then [] :: splitOnChar sep rest
    else
      match splitOnChar sep rest with
      | [] => [[c]]
      | h :: t => (c :: h) :: t

/-- Go `strings.Split(s, sep)` for the one-character separators used by
the pagination codecs (`";"` and `","`). -/
def goSplit (s : String) (sep : Char) : List String :=
  (splitOnChar sep s.toList).map String.mk

/-- The query string of a URL: everything after the first `?`, with any
`#fragment` removed first (model of how `url.Parse` carves up the URLs
appearing in pagination `Link` headers). -/
def urlQueryString (rawURL : String) : List Char :=
  let beforeFragment := (splitAtFirst '#' rawURL.toList).1
  match splitAtFirst '?' beforeFragment with
  | (_, some q) => q
  | (_, none) => []

/-- Go `url.Parse(rawURL).Query().Get(key)`: first value recorded for
`key`, `""` when absent. -/
def goURLQueryGet (rawURL : String) (key : String) : String :=
  let pairs := (splitOnChar '&' (urlQueryString rawURL)).filterMap
    parseQuerySegment
  match pairs.find? (fun p => p.1 = key) with
  | some p => p.2
  | none => ""

/-- Go `fmt.Sscanf(s, "%d", &n)` as used by both codecs: skip leading
whitespace, optional sign, then the longest digit prefix; on failure
`n` keeps its zero value. -/
def goScanInt (s : String) : Int :=
  let cs := s.toList.dropWhile (·.isWhitespace)
  let signAndRest : Bool × List Char :=
    match cs with
    | '-' :: rest => (true, rest)
    | '+' :: rest => (false, rest)
    | _ => (false, cs)
  let digits := signAndRest.2.takeWhile (·.isDigit)
  if digits.isEmpty then 0
  else
    let n : Int := digits.foldl (fun acc c => acc * 10 + ((c.toNat : Int) - 48)) 0
    if signAndRest.1 then -n else n

/-! ### Pagination codecs -/

/-- `PaginatedResponse` (responses.go): `HasMore`, `Last` (next cursor)
and `N` (page size). -/
structure PaginatedResponse where
  HasMore : Bool := false
  Last : String := ""
  N : Int := 0
deriving Repr, DecidableEq

/-- `parseLinkHeader` (registry.go lines 78-114), the OCI codec: empty
header → zero value; otherwise take the part before the first `;`, trim
spaces and `<`/`>`, and read `last` and `n` from the linked URL's query
string (the scan error of `Sscanf` is ignored, leaving `n = 0`). -/
def parseLinkHeader (linkHeader : String) : PaginatedResponse :=
  if linkHeader = "" then {}
  else
    let parts := goSplit linkHeader ';'
    match parts with
    | [] => {}
    | p0 :: _ =>
      let urlPart := goTrim (goTrimSpace p0) ['<', '>']
      let last := goURLQueryGet urlPart "last"
      let nStr := goURLQueryGet urlPart "n"
      let n : Int := if nStr ≠ "" then goScanInt nStr else 0
      { HasMore := true, Last := last, N := n }

/-- `extractLinkURL` (github.go lines 717-724): the span between the
first `<` and the first `>`, or `""` when no such span exists. -/
def extractLinkURL (link : String) : String :=
  let start := goIndexOfChar link '<'
  let stop := goIndexOfChar link '>'
  if start = -1 ∨ stop = -1 ∨ stop ≤ start then ""
  else String.mk ((link.toList.drop (start.toNat + 1)).take
    (stop.toNat - start.toNat - 1))

/-- `parseGitHubLinkURL` (github.go lines 703-715): `page` and
`per_page` from the linked URL's query string. -/
def parseGitHubLinkURL (linkURL : String) : String × Int :=
  let page := goURLQueryGet linkURL "page"
  let perPage := goURLQueryGet linkURL "per_page"
  let pageSize : Int := if perPage ≠ "" then goScanInt perPage else 0
  (page, pageSize)

/-- The loop of `parseGitHubLinkHeader` over the comma-separated
entries: the first entry containing `rel="next"` decides the result;
no such entry means no more pages. -/
def parseGitHubLinkLoop : List String → PaginatedResponse
  | [] => {}
  | link :: rest =>
    if goContains link "rel=\"next\"" then
      let linkURL := extractLinkURL link
      if linkURL = "" then { HasMore := true }
      else
        let pn := parseGitHubLinkURL linkURL
        { HasMore := true, Last := pn.1, N := pn.2 }
    else parseGitHubLinkLoop rest

/-- `parseGitHubLinkHeader` (github.go lines 726-752), the GitHub
codec. -/
def parseGitHubLinkHeader (linkHeader : String) : PaginatedResponse :=
  if linkHeader = "" then {}
  else parseGitHubLinkLoop (goSplit linkHeader ',')

/-! ### Manifest decoder (registry.go / interface.go)

`ParseManifest` calls `json.Unmarshal` on the body three ways (generic
envelope, `ImageManifest`, `ManifestList`).  JSON documents are
embedded as an inductive `JValue`; the body bytes are carried
separately as the `raw` argument, with the parsed `JValue` standing for
what `json.Unmarshal` reads out of them.  The per-struct decoders below
mirror `encoding/json` semantics for the struct definitions in
interface.go: missing fields and JSON `null` leave the zero value, a
value of the wrong JSON kind is a hard error. -/

/-- JSON documents (numbers restricted to integers, which covers every
field the decoded structs contain). -/
inductive JValue where
  | jnull
  | jbool (b : Bool)
  | jnum (n : Int)
  | jstr (s : String)
  | jarr (elems : List JValue)
  | jobj (fields : List (String × JValue))

/-- Field lookup in a JSON object; for duplicate keys `encoding/json`
lets the last occurrence win. -/
def getField (fields : List (String × JValue)) (key : String) : Option JValue :=
  (fields.reverse.find? (fun f => f.1 = key)).map (·.2)

/-- `encoding/json` decoding of a JSON value into a Go `int` field:
numbers decode, `null` keeps the zero value, anything else errors. -/
def jToInt : JValue → Option Int
  | .jnum n => some n
  | .jnull => some 0
  | _ => none

/-- `encoding/json` decoding into a Go `string` field. -/
def jToStr : JValue → Option String
  | .jstr s => some s
  | .jnull => some ""
  | _ => none

/-- Decode an object field into an `Int`, defaulting to `0` when the
field is absent. -/
def fieldInt (fields : List (String × JValue)) (key : String) : Option Int :=
  match getField fields key with
  | none => some 0
  | some v => jToInt v

/-- Decode an object field into a `String`, defaulting to `""` when the
field is absent. -/
def fieldStr (fields : List (String × JValue)) (key : String) : Option String :=
  match getField fields key with
  | none => some ""
  | some v => jToStr v

/-- `ImageConfig` (interface.go): `digest string`. -/
structure ImageConfig where
  Digest : String
deriving Repr, DecidableEq

/-- `Layer` (interface.go): `digest string`, `size int64`. -/
structure Layer where
  Digest : String
  Size : Int
deriving Repr, DecidableEq

/-- `ImageManifest` (interface.go): `config`, `layers`. -/
structure ImageManifest where
  Config : ImageConfig
  Layers : List Layer
deriving Repr, DecidableEq

/-- `Platform` (interface.go): `architecture`, `os`. -/
structure Platform where
  Architecture : String
  OS : String
deriving Repr, DecidableEq

/-- `ManifestReference` (interface.go): `mediaType`, `digest`,
`platform`. -/
structure ManifestReference where
  MediaType : String
  Digest : String
  Platform : Platform
deriving Repr, DecidableEq

/-- `ManifestList` (interface.go): `manifests`. -/
structure ManifestList where
  Manifests : List ManifestReference
deriving Repr, DecidableEq

/-- Decode into `ImageConfig`. -/
def unmarshalImageConfig : JValue → Option ImageConfig
  | .jobj fs => (fieldStr fs "digest").map ImageConfig.mk
  | .jnull => some ⟨""⟩
  | _ => none

/-- Decode into `Layer`. -/
def unmarshalLayer : JValue → Option Layer
  | .jobj fs => do
    let d ← fieldStr fs "digest"
    let sz ← fieldInt fs "size"
    pure ⟨d, sz⟩
  | .jnull => some ⟨"", 0⟩
  | _ => none

/-- Decode a JSON array field into a Go slice; `null` yields the nil
slice. -/
def unmarshalSlice {α : Type} (f : JValue → Option α) : JValue → Option (List α)
  | .jarr es => es.mapM f
  | .jnull => some []
  | _ => none

/-- `json.Unmarshal(b, &img)` for `ImageManifest` (the second decode in
`ParseManifest` for single-platform media types). -/
def unmarshalImageManifest : JValue → Option ImageManifest
  | .jobj fs => do
    let cfg ←
      match getField fs "config" with
      | none => some ⟨""⟩
      | some v => unmarshalImageConfig v
    let layers ←
      match getField fs "layers" with
      | none => some []
      | some v => unmarshalSlice unmarshalLayer v
    pure ⟨cfg, layers⟩
  | .jnull => some ⟨⟨""⟩, []⟩
  | _ => none

/-- Decode into `Platform`. -/
def unmarshalPlatform : JValue → Option Platform
  | .jobj fs => do
    let arch ← fieldStr fs "architecture"
    let os ← fieldStr fs "os"
    pure ⟨arch, os⟩
  | .jnull => some ⟨"", ""⟩
  | _ => none

/-- Decode into `ManifestReference`. -/
def unmarshalManifestRef : JValue → Option ManifestReference
  | .jobj fs => do
    let mt ← fieldStr fs "mediaType"
    let d ← fieldStr fs "digest"
    let p ←
      match getField fs "platform" with
      | none => some ⟨"", ""⟩
      | some v => unmarshalPlatform v
    pure ⟨mt, d, p⟩
  | .jnull => some ⟨"", "", ⟨"", ""⟩⟩
  | _ => none

/-- `json.Unmarshal(b, &list)` for `ManifestList` (the second decode in
`ParseManifest` for multi-platform media types). -/
def unmarshalManifestList : JValue → Option ManifestList
  | .jobj fs =>
    (match getField fs "manifests" with
      | none => some []
      | some v => unmarshalSlice unmarshalManifestRef v).map ManifestList.mk
  | .jnull => some ⟨[]⟩
  | _ => none

/-- The generic envelope decode `json.Unmarshal(b, &m)` into `Manifest`
(interface.go): `schemaVersion int`, `mediaType string`; the other two
fields are tagged `json:"-"`. -/
def unmarshalEnvelope : JValue → Option (Int × String)
  | .jobj fs => do
    let sv ← fieldInt fs "schemaVersion"
    let mt ← fieldStr fs "mediaType"
    pure (sv, mt)
  | .jnull => some (0, "")
  | _ => none

/-- The discriminated payload carried in `Manifest.ManifestData`
(an `any` in Go, nil until a branch of `ParseManifest` assigns it). -/
inductive ManifestData where
  | image (m : ImageManifest)
  | list (l : ManifestList)
deriving Repr, DecidableEq

/-- `Manifest` (interface.go) as constructed by `ParseManifest`:
`Raw` holds the input body bytes, `ManifestData` the decoded payload
(`none` models a nil `any`). -/
structure Manifest where
  SchemaVersion : Int
  MediaType : String
  Raw : String
  ManifestData : Option ManifestData
deriving Repr, DecidableEq

/-- `ParseManifest` (registry.go lines 29-62).  `raw` is the input byte
string `b`; `j` is the JSON document `json.Unmarshal` reads from it
(callers pass the actual parse of `b`; a body that is not valid JSON
fails the envelope decode and yields `none`).  The switch groups the
two single-platform media types (`fallthrough`) and the two index media
types; any other media type is the `unsupported mediaType` error. -/
def ParseManifest (raw : String) (j : JValue) : Option Manifest :=
  match unmarshalEnvelope j with
  | none => none
  | some (sv, mt) =>
    if mt = "application/vnd.oci.image.manifest.v1+json" ∨
        mt = "application/vnd.docker.distribution.manifest.v2+json" then
      (unmarshalImageManifest j).map fun img =>
        ⟨sv, mt, raw, some (.image img)⟩
    else if mt = "application/vnd.oci.image.index.v1+json" ∨
        mt = "application/vnd.docker.distribution.manifest.list.v2+json" then
      (unmarshalManifestList j).map fun l =>
        ⟨sv, mt, raw, some (.list l)⟩
    else none

/-! ### GitHub client (github.go) -/

/-- `GitHubContainerMetadata` (responses.go): `tags`. -/
structure GitHubContainerMetadata where
  Tags : List String
deriving Repr, DecidableEq

/-- `GitHubPackageMetadata` (responses.go): `container`. -/
structure GitHubPackageMetadata where
  Container : GitHubContainerMetadata
deriving Repr, DecidableEq

/-- `GitHubPackageVersion` (responses.go): numeric `id`, content digest
in `name`, tag set in `metadata.container.tags`. -/
structure GitHubPackageVersion where
  ID : Int
  Name : String
  Metadata : GitHubPackageMetadata
deriving Repr, DecidableEq

/-- The per-version test inside the `findPackageVersionID` loop
(github.go lines 639-651): digest references compare against `v.Name`,
tag references against membership in `v.Metadata.Container.Tags`
(`slices.Contains`). -/
def versionMatches (isDigest : Bool) (reference : String)
    (v : GitHubPackageVersion) : Bool :=
  if isDigest then v.Name == reference
  else v.Metadata.Container.Tags.contains reference

/-- The not-found error text of `findPackageVersionID` (github.go line
659). -/
def notFoundMsg (reference : String) : String :=
  "package version not found for reference: " ++ reference

/-- `GitHubClient.findPackageVersionID` (github.go lines 625-660). The
loop requests pages `1, 2, 3, …` with fixed page size 100
(`PaginationParams{N: 100, Last: fmt.Sprintf("%d", page)}`); `pages`
lists the server's responses to those requests in that ascending order,
with exhaustion of the list standing for the server answering an empty
page from then on.  An empty page breaks the loop, a match returns the
version ID, a page shorter than the requested 100 entries breaks after
being scanned; breaking without a match is the terminal not-found
error naming the reference. -/
def findPackageVersionID (reference : String) :
    List (List GitHubPackageVersion) → Except String Int
  | [] => .error (notFoundMsg reference)
  | versions :: rest =>
    if versions.length = 0 then .error (notFoundMsg reference)
    else
      match versions.find?
          (versionMatches (goHasPrefixStr reference "sha256:") reference) with
      | some v => .ok v.ID
      | none =>
        if versions.length < 100 then .error (notFoundMsg reference)
        else findPackageVersionID reference rest

/-- Specification-side view of the pages the loop examines: every page
up to and including the first one shorter than the requested size of
100 (later pages are never fetched). -/
def scannedPages : List (List GitHubPackageVersion) →
    List (List GitHubPackageVersion)
  | [] => []
  | p :: rest => if p.length < 100 then [p] else p :: scannedPages rest

/-- Specification-side view of resolution, following the spec's words:
the first version in the scanned pages (ascending page order, original
order within a page) whose digest or tag set matches the reference. -/
def specFirstMatch (reference : String)
    (pages : List (List GitHubPackageVersion)) : Option GitHubPackageVersion :=
  (scannedPages pages).flatten.find?
    (versionMatches (goHasPrefixStr reference "sha256:") reference)

/-- The `owner/` strip at the top of `GitHubClient.DeleteManifest`
(github.go lines 391-397): the package name is everything after the
first `/`, or the whole string when there is none. -/
def stripOwner (repository : String) : String :=
  match repository.toList.findIdx? (· = '/') with
  | none => repository
  | some i => String.mk (repository.toList.drop (i + 1))

/-- Result of a `DeleteManifest` call together with the DELETE requests
it issued (each identified by the targeted version ID). -/
structure DeleteManifestOutcome where
  result : Except String Unit
  deletesIssued : List Int
deriving Repr

/-- Modelled from the spec: the `DisableDelete` flag and the flag-aware
`GitHubClient.DeleteManifest`.  The flag is documented in the
repository's README ("Prevents actual deletion, only logs") and
exercised by `TestGitHubClient_DeleteManifest_DisableDelete`, but the
field and its check are absent from the `github.go` under `src/`; per
the spec, the delete protocol still resolves the version
(`findPackageVersionID`, taken from the source) and, when the flag is
set, skips the destructive call and reports success.  `pages` gives the
version listing per package name; `deleteOutcome` gives the server's
response to a DELETE of a version ID (`deletePackageVersion`,
github.go lines 662-701). -/
def deleteManifestModel (disableDelete : Bool) (repository reference : String)
    (pages : String → List (List GitHubPackageVersion))
    (deleteOutcome : String → Int → Except String Unit) :
    DeleteManifestOutcome :=
  let packageName := stripOwner repository
  match findPackageVersionID reference (pages packageName) with
  | .error e => ⟨.error e, []⟩
  | .ok versionID =>
    if disableDelete then ⟨.ok (), []⟩
    else
      match deleteOutcome packageName versionID with
      | .ok _ => ⟨.ok (), [versionID]⟩
      | .error e => ⟨.error e, [versionID]⟩

/-! ### Authentication planes (client.go / github.go) -/

/-- The alphabet of `base64.StdEncoding`. -/
def base64Chars : List Char :=
  "ABCDEFGHIJKLMNOPQRSTUVWXYZabcdefghijklmnopqrstuvwxyz0123456789+/".toList

/-- One output character of standard base64. -/
def base64Char (n : Nat) : Char := (base64Chars.drop n).headD 'A'

/-- Standard base64 of a byte sequence (`base64.StdEncoding`), with
`=` padding. -/
def base64Bytes : List Nat → List Char
  | [] => []
  | [a] => [base64Char (a / 4), base64Char (a % 4 * 16), '=', '=']
  | [a, b] =>
    [base64Char (a / 4), base64Char (a % 4 * 16 + b / 16),
     base64Char (b % 16 * 4), '=']
  | a :: b :: c :: rest =>
    base64Char (a / 4) :: base64Char (a % 4 * 16 + b / 16) ::
    base64Char (b % 16 * 4 + c / 64) :: base64Char (c % 64) ::
    base64Bytes rest

/-- UTF-8 encoding of one character (Go strings are UTF-8 byte
sequences; `[]byte(s)` exposes those bytes). -/
def utf8Encode (c : Char) : List Nat :=
  let n := c.toNat
  if n < 128 then [n]
  else if n < 2048 then [192 + n / 64, 128 + n % 64]
  else if n < 65536 then [224 + n / 4096, 128 + n / 64 % 64, 128 + n % 64]
  else [240 + n / 262144, 128 + n / 4096 % 64, 128 + n / 64 % 64,
    128 + n % 64]

/-- The bytes of a Go string. -/
def stringBytes (s : String) : List Nat :=
  (s.toList.map utf8Encode).flatten

/-- `base64.StdEncoding.EncodeToString([]byte(s))` as called by
`NewGitHubClient` / `NewGitHubOrgClient` (github.go lines 317-353). -/
def base64Encode (s : String) : String :=
  String.mk (base64Bytes (stringBytes s))

/-- An outgoing HTTP request, reduced to what the auth claims need:
method, URL path, query parameters in the order they were added, and
headers. -/
structure HttpRequest where
  method : String
  url : String
  query : List (String × String)
  headers : List (String × String)
deriving Repr, DecidableEq

/-- `http.Header.Set`: replace any existing value for the key. -/
def setHeader (req : HttpRequest) (key value : String) : HttpRequest :=
  { req with
    headers := req.headers.filter (fun h => ¬ h.1 = key) ++ [(key, value)] }

/-- `http.Header.Get`: first value for the key, `""` when absent. -/
def getHeader (req : HttpRequest) (key : String) : String :=
  match req.headers.find? (fun h => h.1 = key) with
  | some h => h.2
  | none => ""

/-- `BearerAuth.Apply` (client.go lines 34-40): set
`Authorization: Bearer <token>`. -/
def bearerAuthApply (token : String) (req : HttpRequest) : HttpRequest :=
  setHeader req "Authorization" ("Bearer " ++ token)

/-- The registry auth token installed by `NewGitHubClient` /
`NewGitHubOrgClient` (github.go lines 317-353): the base64-encoded API
token, wrapped in `BearerAuth` on the ghcr.io client. -/
def registryAuthToken (apiToken : String) : String := base64Encode apiToken

/-- The header effect of `(*Client).Do` (client.go lines 52-58) for a
client whose `Auth` is `BearerAuth{token}`: `Auth.Apply` runs before
the request is handed to the retry loop and the transport. -/
def clientDoSend (authToken : String) (req : HttpRequest) : HttpRequest :=
  bearerAuthApply authToken req

/-- The request built by `GitHubClient.listPackageVersions` (github.go
lines 581-599) before it is sent: query `state=active` plus the
pagination parameters, raw-token `Authorization`, GitHub `Accept` and
API-version headers. -/
def listPackageVersionsRequest (apiURL apiToken : String)
    (pagination : Option (Int × String)) : HttpRequest :=
  let base : HttpRequest := ⟨"GET", apiURL, [("state", "active")], []⟩
  let withPg :=
    match pagination with
    | none => base
    | some (n, last) =>
      let q1 := if n > 0 then base.query ++ [("per_page", toString n)]
        else base.query
      let q2 := if last ≠ "" then q1 ++ [("page", last)] else q1
      { base with query := q2 }
  setHeader (setHeader (setHeader withPg
    "Authorization" ("Bearer " ++ apiToken))
    "Accept" "application/vnd.github+json")
    "X-GitHub-Api-Version" "2022-11-28"

/-- The request `listPackageVersions` actually delivers to the
transport.  The source sends it with `gc.Client.Do(req)` (github.go
line 604): `gc.Client` is the embedded `*registryclient.Client`, whose
own `Do` method shadows the promoted `http.Client.Do`, so the registry
auth strategy (`BearerAuth` holding the base64-encoded token) is
applied to the request before transmission. -/
def listPackageVersionsDelivered (apiURL apiToken : String)
    (pagination : Option (Int × String)) : HttpRequest :=
  clientDoSend (registryAuthToken apiToken)
    (listPackageVersionsRequest apiURL apiToken pagination)

/-- The request built by `GitHubClient.deletePackageVersion` (github.go
lines 671-678). -/
def deletePackageVersionRequest (apiURL apiToken : String) : HttpRequest :=
  setHeader (setHeader (setHeader (⟨"DELETE", apiURL, [], []⟩ : HttpRequest)
    "Authorization" ("Bearer " ++ apiToken))
    "Accept" "application/vnd.github+json")
    "X-GitHub-Api-Version" "2022-11-28"

/-- The request `deletePackageVersion` delivers to the transport; like
`listPackageVersions` it goes through `gc.Client.Do(req)` (github.go
line 683), i.e. through the registry auth strategy. -/
def deletePackageVersionDelivered (apiURL apiToken : String) : HttpRequest :=
  clientDoSend (registryAuthToken apiToken)
    (deletePackageVersionRequest apiURL apiToken)

/-- The request built by `buildGitHubPackagesRequest` (github.go lines
425-448) for `getUserPackages` / `getOrgPackages`: `package_type=container`
plus pagination, raw-token `Authorization`, GitHub headers. -/
def buildGitHubPackagesRequest (apiURL apiToken : String)
    (pagination : Option (Int × String)) : HttpRequest :=
  let base : HttpRequest := ⟨"GET", apiURL, [("package_type", "container")], []⟩
  let withPg :=
    match pagination with
    | none => base
    | some (n, last) =>
      let q1 := if n > 0 then base.query ++ [("per_page", toString n)]
        else base.query
      let q2 := if last ≠ "" then q1 ++ [("page", last)] else q1
      { base with query := q2 }
  setHeader (setHeader (setHeader withPg
    "Authorization" ("Bearer " ++ apiToken))
    "Accept" "application/vnd.github+json")
    "X-GitHub-Api-Version" "2022-11-28"

/-- The request `getUserPackages` / `getOrgPackages` deliver to the
transport: these two really do bypass the registry auth strategy by
calling `api.client.Client.Do(req)` — the *embedded* `http.Client`'s
`Do` (github.go lines 466, 507) — so the built request goes out
unchanged. -/
def getPackagesDelivered (apiURL apiToken : String)
    (pagination : Option (Int × String)) : HttpRequest :=
  buildGitHubPackagesRequest apiURL apiToken pagination

/-- A registry-plane (ghcr.io) request as delivered by `(*Client).Do`
for the GitHub client: the builders in registry.go add no
`Authorization` header themselves, and `Do` applies the registry
`BearerAuth` holding the base64-encoded token. -/
def registryPlaneDelivered (apiToken : String) (req : HttpRequest) :
    HttpRequest :=
  clientDoSend (registryAuthToken apiToken) req

/-! ### Concrete example inputs used by counterexamples and witnesses -/

/-- A JSON manifest body with `schemaVersion: 3` and a supported single
platform media type (and nothing else — missing fields decode to zero
values). -/
def exSchema3Doc : JValue :=
  .jobj [("schemaVersion", .jnum 3),
         ("mediaType", .jstr "application/vnd.oci.image.manifest.v1+json")]

/-- A well-formed OCI image manifest document with `schemaVersion: 2`. -/
def exImageDoc : JValue :=
  .jobj [("schemaVersion", .jnum 2),
         ("mediaType", .jstr "application/vnd.oci.image.manifest.v1+json"),
         ("config", .jobj [("digest", .jstr "sha256:cfg")]),
         ("layers", .jarr [.jobj [("digest", .jstr "sha256:l1"),
                                  ("size", .jnum 42)]])]

/-- The `Manifest` value `ParseManifest "BYTES" exImageDoc` produces. -/
def exManifest : Manifest :=
  ⟨2, "application/vnd.oci.image.manifest.v1+json", "BYTES",
   some (.image ⟨⟨"sha256:cfg"⟩, [⟨"sha256:l1", 42⟩]⟩)⟩

/-- A one-page version listing holding a single version with ID 7,
digest `sha256:abc` and tag `latest`. -/
def exVersionPages : List (List GitHubPackageVersion) :=
  [[⟨7, "sha256:abc", ⟨⟨["latest"]⟩⟩⟩]]

/-! ## Helper lemmas -/

theorem wrap64_eq_self {x : Int} (h1 : -(2 ^ 63) ≤ x) (h2 : x < 2 ^ 63) :
    wrap64 x = x := by
  unfold wrap64
  have h0 : (0 : Int) ≤ x + 2 ^ 63 := by linarith
  have hsum : (2 : Int) ^ 64 = 2 ^ 63 + 2 ^ 63 := by norm_num
  have hlt : x + 2 ^ 63 < 2 ^ 64 := by rw [hsum]; linarith
  rw [Int.emod_eq_of_lt h0 hlt]
  ring

theorem goShl1_eq_pow {e : Nat} (he : e ≤ 62) : goShl1 e = 2 ^ e := by
  unfold goShl1
  apply wrap64_eq_self
  · have : (0 : Int) ≤ 2 ^ e := by positivity
    linarith
  · have hle : (2 : Int) ^ e ≤ 2 ^ 62 := pow_le_pow_right₀ (by norm_num) he
    have hlt : (2 : Int) ^ 62 < 2 ^ 63 := by norm_num
    linarith

theorem calculateBackoff_eq {a backoff : Int} (ha : 1 ≤ a)
    (he : a - 1 ≤ 62) (hb : 0 ≤ backoff)
    (hp : backoff * 2 ^ (a - 1).toNat < 2 ^ 63) :
    calculateBackoff a backoff = backoff * 2 ^ (a - 1).toNat := by
  unfold calculateBackoff
  have hmax : max (a - 1) 0 = a - 1 := max_eq_left (by omega)
  rw [hmax, goShl1_eq_pow (by omega)]
  apply wrap64_eq_self
  · have : (0 : Int) ≤ backoff * 2 ^ (a - 1).toNat := by positivity
    linarith
  · exact hp

theorem find?_append_some {α : Type} {p : α → Bool} {l₁ : List α}
    (l₂ : List α) {v : α} (h : l₁.find? p = some v) :
    (l₁ ++ l₂).find? p = some v := by
  induction l₁ with
  | nil => simp at h
  | cons a t ih =>
    by_cases ha : p a
    · simp [List.find?_cons_of_pos _ ha] at h ⊢; exact h
    · rw [List.find?_cons_of_neg _ ha] at h
      simpa [List.find?_cons_of_neg _ ha] using ih h

theorem find?_append_none {α : Type} {p : α → Bool} {l₁ : List α}
    (l₂ : List α) (h : l₁.find? p = none) :
    (l₁ ++ l₂).find? p = l₂.find? p := by
  induction l₁ with
  | nil => simp
  | cons a t ih =>
    by_cases ha : p a
    · simp [List.find?_cons_of_pos _ ha] at h
    · rw [List.find?_cons_of_neg _ ha] at h
      simpa [List.find?_cons_of_neg _ ha] using ih h

theorem scannedPages_cons (p : List GitHubPackageVersion)
    (rest : List (List GitHubPackageVersion)) :
    scannedPages (p :: rest) =
      if p.length < 100 then [p] else p :: scannedPages rest := rfl

theorem retryLoop_some_ok (l : List AttemptOutcome) :
    ∀ (r : HttpResponse) (le : Option ErrCause),
    ∃ r', retryLoop l (some r) le = .ok r' := by
  induction l with
  | nil => intro r le; exact ⟨r, rfl⟩
  | cons o rest ih =>
    intro r le
    cases o with
    | response r2 =>
      by_cases h : isRetryableStatus r2.statusCode
      · simpa [retryLoop, h] using ih r2 _
      · exact ⟨r2, by simp [retryLoop, h]⟩
    | transportErr e => simpa [retryLoop] using ih r _

theorem retryLoop_fail_characterization (l : List AttemptOutcome) :
    ∀ (le : Option ErrCause) (cause : ErrCause),
    retryLoop l none le = .fail cause →
    (l = [] ∧ cause = le.getD (.transport 0)) ∨
    (∃ e, l.getLast? = some (.transportErr e) ∧ cause = .transport e) := by
  induction l with
  | nil =>
    intro le cause h
    left
    refine ⟨rfl, ?_⟩
    have h' : RetryResult.fail (le.getD (.transport 0)) = .fail cause := by
      simpa [retryLoop] using h
    injection h' with h'
    exact h'.symm
  | cons o rest ih =>
    intro le cause h
    cases o with
    | response r =>
      by_cases hr : isRetryableStatus r.statusCode
      · rw [show retryLoop (AttemptOutcome.response r :: rest) none le =
            retryLoop rest (some r) (some (.retryStatus r.statusCode)) by
          simp [retryLoop, hr]] at h
        obtain ⟨r', hr'⟩ := retryLoop_some_ok rest r _
        rw [hr'] at h
        exact absurd h (by simp)
      · rw [show retryLoop (AttemptOutcome.response r :: rest) none le =
            .ok r by simp [retryLoop, hr]] at h
        exact absurd h (by simp)
    | transportErr e =>
      have h' : retryLoop rest none (some (.transport e)) = .fail cause := by
        simpa [retryLoop] using h
      rcases ih _ _ h' with ⟨hrest, hc⟩ | ⟨e', hl, hc⟩
      · right
        refine ⟨e, ?_, by simpa using hc⟩
        simp [hrest]
      · right
        refine ⟨e', ?_, hc⟩
        cases rest with
        | nil => simp at hl
        | cons b t => rw [List.getLast?_cons_cons]; exact hl

theorem retryLoop_all_retryable (l : List AttemptOutcome) :
    ∀ (lr : Option HttpResponse) (le : Option ErrCause) (r : HttpResponse),
    (∀ o ∈ l, ∃ r2, o = .response r2 ∧ isRetryableStatus r2.statusCode = true) →
    l.getLast? = some (.response r) →
    retryLoop l lr le = .ok r := by
  induction l with
  | nil => intro lr le r _ hlast; simp at hlast
  | cons o rest ih =>
    intro lr le r hall hlast
    obtain ⟨r0, ho, hret⟩ := hall o (by simp)
    subst ho
    cases rest with
    | nil =>
      simp at hlast
      subst hlast
      simp [retryLoop, hret]
    | cons o2 t =>
      rw [List.getLast?_cons_cons] at hlast
      rw [show retryLoop (AttemptOutcome.response r0 :: o2 :: t) lr le =
          retryLoop (o2 :: t) (some r0) (some (.retryStatus r0.statusCode)) by
        simp [retryLoop, hret]]
      exact ih _ _ _ (fun o ho => hall o (by simp [ho])) hlast

/-! ## Claims -/

/-- Claim C3: when every attempt of a request ends in a retryable HTTP
response (e.g. status 500 on each of the `maxAttempts` attempts), the
retry engine returns the last such response with a nil error; and an
error is propagated only when the final recorded outcome was a
transport-level failure rather than a response. -/
theorem doWithRetry_exhaustion_policy (c : Client)
    (outcomes : List AttemptOutcome)
    (hlen : outcomes.length = c.maxAttempts.toNat) :
    ((∀ o ∈ outcomes, ∃ r, o = AttemptOutcome.response r ∧
        isRetryableStatus r.statusCode = true) →
      ∀ r, outcomes.getLast? = some (.response r) →
        doWithRetry c outcomes = .ok r)
    ∧ (∀ cause, doWithRetry c outcomes = .fail cause →
        ∃ e, cause = .transport e ∧
          outcomes.getLast? = some (.transportErr e)) := by
  have htake : outcomes.take c.maxAttempts.toNat = outcomes := by
    rw [← hlen]; exact List.take_length outcomes
  constructor
  · intro hall r hlast
    unfold doWithRetry
    rw [htake]
    exact retryLoop_all_retryable _ _ _ _ hall hlast
  · intro cause hfail
    unfold doWithRetry at hfail
    rw [htake] at hfail
    rcases retryLoop_fail_characterization _ _ _ hfail with ⟨hempty, _⟩ | ⟨e, hl, hc⟩
    · exfalso
      have h1 : 1 ≤ c.maxAttempts := by
        unfold Client.maxAttempts; split <;> omega
      have h2 : 1 ≤ outcomes.length := by
        rw [hlen]; omega
      simp [hempty] at h2
    · exact ⟨e, hc, hl⟩

/-- Witness for C3: three 500 responses under `MaxAttempts = 3` yield
the third response with no error. -/
theorem doWithRetry_exhaustion_policy_witness :
    doWithRetry ⟨3, 0⟩
      [.response ⟨500, "a"⟩, .response ⟨500, "b"⟩, .response ⟨500, "c"⟩] =
      .ok ⟨500, "c"⟩ :=
  (doWithRetry_exhaustion_policy ⟨3, 0⟩ _ (by decide)).1
    (by
      intro o ho
      simp only [List.mem_cons, List.not_mem_nil, or_false] at ho
      rcases ho with h | h | h <;> subst h <;> exact ⟨_, rfl, by decide⟩)
    ⟨500, "c"⟩ (by decide)

/-- Counterexample to claim C5 as stated: with `MaxAttempts = 100` and
the normalized default backoff of 100ms, attempt 80 lies in
`[1, maxAttempts]` and has no `Retry-After` override, yet the computed
delay is 0 — not `initialBackoff × 2^79` — because the Go `int64`
shift/product in `calculateBackoff` overflows and wraps. -/
theorem calculateBackoff_overflow_counterexample :
    (1 : Int) ≤ 80 ∧ (80 : Int) ≤ Client.maxAttempts ⟨100, 0⟩ ∧
    getRetryDelay none 0 80 (Client.backoff ⟨100, 0⟩) = 0 ∧
    Client.backoff ⟨100, 0⟩ * 2 ^ ((80 : Int) - 1).toNat ≠ 0 :=
  ⟨by norm_num, by decide, by decide, by decide⟩

/-- Claim C5 (amended): a configured `MaxAttempts ≤ 0` normalizes to 1
attempt and a configured `RetryBackoff ≤ 0` normalizes to a 100ms
initial backoff; and for every attempt in `[1, maxAttempts]` where no
`Retry-After` override applies, the delay before the next attempt
equals `initialBackoff × 2^(attempt−1)` — provided `attempt − 1 ≤ 62`
and the product stays below `2^63` (otherwise the `int64` shift and
product in the Go code wrap around). -/
theorem retry_backoff_formula (c : Client) (a : Int)
    (resp : Option RespHeaders) (now : Int) :
    (c.MaxAttempts ≤ 0 → c.maxAttempts = 1)
    ∧ (c.RetryBackoff ≤ 0 → c.backoff = 100 * nsPerMillisecond)
    ∧ (1 ≤ a → a ≤ c.maxAttempts →
        (∀ r, resp = some r → ¬ parseRetryAfter r now > 0) →
        a - 1 ≤ 62 → c.backoff * 2 ^ (a - 1).toNat < 2 ^ 63 →
        getRetryDelay resp now a c.backoff = c.backoff * 2 ^ (a - 1).toNat) := by
  refine ⟨?_, ?_, ?_⟩
  · intro h; unfold Client.maxAttempts; simp [h]
  · intro h; unfold Client.backoff; simp [h]
  · intro h1 _ hno hexp hbound
    have hb : 0 ≤ c.backoff := by
      unfold Client.backoff nsPerMillisecond; split <;> omega
    have hcalc : calculateBackoff a c.backoff = c.backoff * 2 ^ (a - 1).toNat :=
      calculateBackoff_eq h1 hexp hb hbound
    cases resp with
    | none => simpa [getRetryDelay] using hcalc
    | some r =>
      have hr := hno r rfl
      simpa [getRetryDelay, if_neg hr] using hcalc

/-- Witness for the amended C5: `MaxAttempts = 0` normalizes to one
attempt, `RetryBackoff = 0` normalizes to 100ms, and attempt 1 without
an override waits `100ms × 2^0`. -/
theorem retry_backoff_formula_witness :
    Client.maxAttempts ⟨0, 0⟩ = 1
    ∧ Client.backoff ⟨0, 0⟩ = 100 * nsPerMillisecond
    ∧ getRetryDelay (some ⟨"", none⟩) 0 1 (Client.backoff ⟨0, 0⟩) =
        Client.backoff ⟨0, 0⟩ * 2 ^ ((1 : Int) - 1).toNat :=
  ⟨(retry_backoff_formula ⟨0, 0⟩ 1 (some ⟨"", none⟩) 0).1 (by norm_num),
   (retry_backoff_formula ⟨0, 0⟩ 1 (some ⟨"", none⟩) 0).2.1 (by norm_num),
   (retry_backoff_formula ⟨0, 0⟩ 1 (some ⟨"", none⟩) 0).2.2 (by norm_num)
     (by decide)
     (by intro r hr; injection hr with hr; subst hr; decide)
     (by norm_num) (by decide)⟩

/-- Counterexample to claim C6 as stated: `Retry-After: 36028797018963968`
(integer seconds `n = 2^55 > 0`) does not delay `n` seconds — the Go
`int64` product `time.Duration(seconds) * time.Second` wraps to exactly
0, so the engine falls back to the exponential backoff (here the 100ms
base). -/
theorem retryAfter_overflow_counterexample :
    goParseInt64 "36028797018963968" = some 36028797018963968
    ∧ (0 : Int) < 36028797018963968
    ∧ getRetryDelay (some ⟨"36028797018963968", none⟩) 0 1
        (100 * nsPerMillisecond) = 100 * nsPerMillisecond
    ∧ (100 * nsPerMillisecond : Int) ≠ 36028797018963968 * nsPerSecond :=
  ⟨by decide, by decide, by decide, by decide⟩

/-- Claim C6 (amended): a retryable response whose `Retry-After` header
carries integer seconds `n > 0` delays exactly `n` seconds regardless
of the configured backoff, provided `n` expressed in nanoseconds stays
below `2^63` (beyond that the `int64` product wraps and the override is
dropped); a `Retry-After` of 0, negative, unparseable, or an HTTP-date
not in the future yields no override and the delay falls back to the
exponential backoff. -/
theorem retryAfter_override_policy (r : RespHeaders)
    (now attempt backoff : Int) :
    (∀ n : Int, goParseInt64 r.retryAfter = some n → 0 < n →
      n * nsPerSecond < 2 ^ 63 →
      getRetryDelay (some r) now attempt backoff = n * nsPerSecond)
    ∧ ((goParseInt64 r.retryAfter = none ∨
        ∃ n, goParseInt64 r.retryAfter = some n ∧ n ≤ 0) →
      (r.retryAfterDate = none ∨
        ∃ t, r.retryAfterDate = some t ∧ t - now ≤ 0) →
      getRetryDelay (some r) now attempt backoff =
        calculateBackoff attempt backoff) := by
  constructor
  · intro n hparse hpos hbound
    have hne : ¬ r.retryAfter = "" := by
      intro h
      rw [h] at hparse
      simp [goParseInt64] at hparse
    have hns : (0 : Int) < nsPerSecond := by norm_num [nsPerSecond]
    have hprod : 0 < n * nsPerSecond := mul_pos hpos hns
    have hpra : parseRetryAfter r now = n * nsPerSecond := by
      simp only [parseRetryAfter, if_neg hne, hparse]
      rw [if_pos hpos]
      exact wrap64_eq_self (by linarith) hbound
    simp only [getRetryDelay]
    rw [hpra, if_pos hprod]
  · intro hint hdate
    have hdd : httpDateDelay r.retryAfterDate now = 0 := by
      rcases hdate with h | ⟨t, ht, hle⟩
      · simp [httpDateDelay, h]
      · simp only [httpDateDelay, ht]
        rw [if_neg (by omega)]
    have hzero : parseRetryAfter r now = 0 := by
      by_cases he : r.retryAfter = ""
      · simp [parseRetryAfter, he]
      · rcases hint with h | ⟨n, hn, hle⟩
        · simp only [parseRetryAfter, if_neg he, h]
          exact hdd
        · simp only [parseRetryAfter, if_neg he, hn]
          rw [if_neg (by omega)]
          exact hdd
    simp only [getRetryDelay]
    rw [hzero]
    simp

/-- Witness for the amended C6: `Retry-After: 7` overrides a 100ms
backoff with 7 seconds, while an unparseable `Retry-After: soon` falls
back to the exponential backoff. -/
theorem retryAfter_override_policy_witness :
    getRetryDelay (some ⟨"7", none⟩) 0 1 (100 * nsPerMillisecond) =
      7 * nsPerSecond
    ∧ getRetryDelay (some ⟨"soon", none⟩) 0 1 (100 * nsPerMillisecond) =
        calculateBackoff 1 (100 * nsPerMillisecond) :=
  ⟨(retryAfter_override_policy ⟨"7", none⟩ 0 1 (100 * nsPerMillisecond)).1
      7 (by decide) (by decide) (by decide),
   (retryAfter_override_policy ⟨"soon", none⟩ 0 1 (100 * nsPerMillisecond)).2
      (Or.inl (by decide)) (Or.inl rfl)⟩

/-- Inversion principle for `ParseManifest`: every success factors
through the envelope decode and exactly one of the two payload
branches. -/
theorem ParseManifest_inversion (raw : String) (j : JValue) (m : Manifest)
    (h : ParseManifest raw j = some m) :
    ∃ sv mt, unmarshalEnvelope j = some (sv, mt) ∧
      m.SchemaVersion = sv ∧ m.MediaType = mt ∧ m.Raw = raw ∧
      ((∃ img, unmarshalImageManifest j = some img ∧
          m.ManifestData = some (.image img) ∧
          (mt = "application/vnd.oci.image.manifest.v1+json" ∨
           mt = "application/vnd.docker.distribution.manifest.v2+json"))
       ∨ (∃ l, unmarshalManifestList j = some l ∧
          m.ManifestData = some (.list l) ∧
          (mt = "application/vnd.oci.image.index.v1+json" ∨
           mt = "application/vnd.docker.distribution.manifest.list.v2+json"))) := by
  unfold ParseManifest at h
  cases he : unmarshalEnvelope j with
  | none => rw [he] at h; simp at h
  | some p =>
    obtain ⟨sv, mt⟩ := p
    rw [he] at h
    dsimp only at h
    split_ifs at h with h1 h2
    · cases hi : unmarshalImageManifest j with
      | none => rw [hi] at h; simp at h
      | some img =>
        rw [hi] at h
        simp only [Option.map_some'] at h
        injection h with h
        subst h
        exact ⟨sv, mt, rfl, rfl, rfl, rfl, Or.inl ⟨img, rfl, rfl, h1⟩⟩
    · cases hl : unmarshalManifestList j with
      | none => rw [hl] at h; simp at h
      | some l =>
        rw [hl] at h
        simp only [Option.map_some'] at h
        injection h with h
        subst h
        exact ⟨sv, mt, rfl, rfl, rfl, rfl, Or.inr ⟨l, rfl, rfl, h2⟩⟩

/-- Counterexample to claim C4 as stated: a body declaring
`schemaVersion: 3` with a supported media type parses successfully —
`ParseManifest` performs no `schemaVersion == 2` validation. -/
theorem parseManifest_schemaVersion_not_validated :
    ParseManifest "RAW3" exSchema3Doc =
      some ⟨3, "application/vnd.oci.image.manifest.v1+json", "RAW3",
        some (.image ⟨⟨""⟩, []⟩)⟩
    ∧ (3 : Int) ≠ 2 :=
  ⟨by decide, by decide⟩

/-- Claim C4 (amended): every `Manifest` successfully returned by
`ParseManifest` has a non-null payload — a decoded `ImageManifest` or
`ManifestList`, selected solely by `mediaType` — and carries the
`schemaVersion` of the input verbatim; `schemaVersion == 2` is not
enforced. -/
theorem parseManifest_payload_invariant (raw : String) (j : JValue)
    (m : Manifest) (h : ParseManifest raw j = some m) :
    m.ManifestData.isSome = true
    ∧ ((m.MediaType = "application/vnd.oci.image.manifest.v1+json" ∨
        m.MediaType = "application/vnd.docker.distribution.manifest.v2+json") →
        ∃ img, m.ManifestData = some (.image img))
    ∧ ((m.MediaType = "application/vnd.oci.image.index.v1+json" ∨
        m.MediaType = "application/vnd.docker.distribution.manifest.list.v2+json") →
        ∃ l, m.ManifestData = some (.list l))
    ∧ (∃ sv mt, unmarshalEnvelope j = some (sv, mt) ∧
        m.SchemaVersion = sv) := by
  obtain ⟨sv, mt, he, hsv, hmt, _, hcase⟩ :=
    ParseManifest_inversion raw j m h
  rcases hcase with ⟨img, _, hd, hg⟩ | ⟨l, _, hd, hg⟩
  · refine ⟨by simp [hd], fun _ => ⟨img, hd⟩, ?_, ⟨sv, mt, he, hsv⟩⟩
    intro hc
    exfalso
    rw [hmt] at hc
    rcases hg with hg | hg <;> rcases hc with hc | hc <;>
      (rw [hg] at hc; exact absurd hc (by decide))
  · refine ⟨by simp [hd], ?_, fun _ => ⟨l, hd⟩, ⟨sv, mt, he, hsv⟩⟩
    intro hc
    exfalso
    rw [hmt] at hc
    rcases hg with hg | hg <;> rcases hc with hc | hc <;>
      (rw [hg] at hc; exact absurd hc (by decide))

/-- Witness for the amended C4: a concrete well-formed image manifest
parse has a non-null payload of the image variant. -/
theorem parseManifest_payload_invariant_witness :
    exManifest.ManifestData.isSome = true :=
  (parseManifest_payload_invariant "BYTES" exImageDoc exManifest (by rfl)).1

/-- Claim C10: for every input on which `ParseManifest` succeeds, the
returned manifest's `Raw` field is exactly the input body, with no
re-serialization. -/
theorem parseManifest_raw_roundtrip (raw : String) (j : JValue)
    (m : Manifest) (h : ParseManifest raw j = some m) : m.Raw = raw := by
  obtain ⟨_, _, _, _, _, hraw, _⟩ := ParseManifest_inversion raw j m h
  exact hraw

/-- Witness for C10 at a concrete image manifest body. -/
theorem parseManifest_raw_roundtrip_witness : exManifest.Raw = "BYTES" :=
  parseManifest_raw_roundtrip "BYTES" exImageDoc exManifest (by rfl)

/-- Claim C8: the OCI Link-header codec maps
`</v2/_catalog?last=myrepo&n=100>; rel="next"` to
`{hasMore: true, cursor: "myrepo", pageSize: 100}` and an entirely
empty Link header to `{hasMore: false, cursor: "", pageSize: 0}`. -/
theorem parseLinkHeader_examples :
    parseLinkHeader "</v2/_catalog?last=myrepo&n=100>; rel=\"next\"" =
      { HasMore := true, Last := "myrepo", N := 100 }
    ∧ parseLinkHeader "" = { HasMore := false, Last := "", N := 0 } :=
  ⟨by decide, by decide⟩

theorem parseGitHubLinkLoop_no_next (links : List String)
    (h : ∀ link ∈ links, goContains link "rel=\"next\"" = false) :
    parseGitHubLinkLoop links = {} := by
  induction links with
  | nil => rfl
  | cons a t ih =>
    have ha := h a (by simp)
    rw [show parseGitHubLinkLoop (a :: t) = parseGitHubLinkLoop t by
      simp [parseGitHubLinkLoop, ha]]
    exact ih (fun l hl => h l (by simp [hl]))

theorem parseGitHubLinkLoop_first_no_url (links : List String) :
    ∀ link, links.find? (fun l => goContains l "rel=\"next\"") = some link →
    extractLinkURL link = "" →
    parseGitHubLinkLoop links = { HasMore := true } := by
  induction links with
  | nil => intro link h _; simp at h
  | cons a t ih =>
    intro link hfind hurl
    by_cases ha : goContains a "rel=\"next\"" = true
    · simp only [List.find?_cons, ha] at hfind
      injection hfind with hfind
      subst hfind
      simp [parseGitHubLinkLoop, ha, hurl]
    · have ha' : goContains a "rel=\"next\"" = false := by
        cases hh : goContains a "rel=\"next\""
        · rfl
        · exact absurd hh ha
      simp only [List.find?_cons, ha'] at hfind
      rw [show parseGitHubLinkLoop (a :: t) = parseGitHubLinkLoop t by
        simp [parseGitHubLinkLoop, ha']]
      exact ih link hfind hurl

/-- Claim C9: a GitHub Link header with no `rel="next"` entry (even
with prev/first/last present) yields `hasMore = false` with empty
cursor; a `rel="next"` entry from which no `<url>` span can be
extracted yields `hasMore = true` with empty cursor. -/
theorem parseGitHubLinkHeader_next_policy (h : String) :
    ((∀ link ∈ goSplit h ',', goContains link "rel=\"next\"" = false) →
      parseGitHubLinkHeader h = { HasMore := false, Last := "", N := 0 })
    ∧ (∀ link,
        (goSplit h ',').find? (fun l => goContains l "rel=\"next\"") =
          some link →
        extractLinkURL link = "" →
        parseGitHubLinkHeader h = { HasMore := true, Last := "", N := 0 }) := by
  constructor
  · intro hall
    by_cases he : h = ""
    · subst he; rfl
    · unfold parseGitHubLinkHeader
      rw [if_neg he]
      exact parseGitHubLinkLoop_no_next _ hall
  · intro link hfind hurl
    by_cases he : h = ""
    · exfalso
      subst he
      rw [show (goSplit "" ',').find?
          (fun l => goContains l "rel=\"next\"") = none from rfl] at hfind
      exact absurd hfind (by simp)
    · unfold parseGitHubLinkHeader
      rw [if_neg he]
      exact parseGitHubLinkLoop_first_no_url _ link hfind hurl

/-- Witness for C9: a header with only prev/first entries reports no
more pages; a malformed `rel="next"` entry without a `<url>` span
reports more pages with an empty cursor. -/
theorem parseGitHubLinkHeader_next_policy_witness :
    parseGitHubLinkHeader
      "<https://x/a?page=3>; rel=\"prev\", <https://x/a?page=1>; rel=\"first\"" =
      { HasMore := false, Last := "", N := 0 }
    ∧ parseGitHubLinkHeader "junk rel=\"next\" junk" =
        { HasMore := true, Last := "", N := 0 } :=
  ⟨(parseGitHubLinkHeader_next_policy
      "<https://x/a?page=3>; rel=\"prev\", <https://x/a?page=1>; rel=\"first\"").1
      (by decide),
   (parseGitHubLinkHeader_next_policy "junk rel=\"next\" junk").2
      "junk rel=\"next\" junk" (by rfl) (by rfl)⟩

/-- Claim C7: GitHub version resolution scans fixed-size-100 pages in
ascending order; it returns the ID of the first version (page order,
then in-page order) whose digest (`name`) equals a `sha256:`-prefixed
reference or whose tag set contains a non-digest reference, looking
only at pages up to and including the first short page; with no match
there it is the terminal not-found error naming the reference. -/
theorem findPackageVersionID_scan_spec (reference : String)
    (pages : List (List GitHubPackageVersion)) :
    (∀ id, findPackageVersionID reference pages = .ok id ↔
      ∃ v, specFirstMatch reference pages = some v ∧ v.ID = id)
    ∧ (specFirstMatch reference pages = none →
      findPackageVersionID reference pages = .error (notFoundMsg reference)) := by
  induction pages with
  | nil =>
    constructor
    · intro id
      constructor
      · intro h; simp [findPackageVersionID] at h
      · rintro ⟨v, hv, _⟩; simp [specFirstMatch, scannedPages] at hv
    · intro _; rfl
  | cons p rest ih =>
    by_cases h0 : p.length = 0
    · have hp : p = [] := List.length_eq_zero.mp h0
      subst hp
      constructor
      · intro id
        constructor
        · intro h; simp [findPackageVersionID] at h
        · rintro ⟨v, hv, _⟩
          simp [specFirstMatch, scannedPages] at hv
      · intro _; simp [findPackageVersionID]
    · cases hfind : p.find?
          (versionMatches (goHasPrefixStr reference "sha256:") reference) with
      | some v =>
        have himpl : findPackageVersionID reference (p :: rest) = .ok v.ID := by
          simp [findPackageVersionID, h0, hfind]
        have hs : specFirstMatch reference (p :: rest) = some v := by
          simp only [specFirstMatch, scannedPages_cons]
          by_cases hlen : p.length < 100
          · rw [if_pos hlen]
            simp only [List.flatten_cons, List.flatten_nil, List.append_nil]
            exact hfind
          · rw [if_neg hlen]
            simp only [List.flatten_cons]
            exact find?_append_some _ hfind
        constructor
        · intro id
          rw [himpl, hs]
          constructor
          · intro h; injection h with h; exact ⟨v, rfl, h⟩
          · rintro ⟨v', hv', hid⟩
            injection hv' with hv'
            subst hv'
            rw [hid]
        · intro hnone
          rw [hs] at hnone
          exact absurd hnone (by simp)
      | none =>
        by_cases hlen : p.length < 100
        · have himpl : findPackageVersionID reference (p :: rest) =
              .error (notFoundMsg reference) := by
            simp [findPackageVersionID, h0, hfind, hlen]
          have hs : specFirstMatch reference (p :: rest) = none := by
            simp only [specFirstMatch, scannedPages_cons]
            rw [if_pos hlen]
            simp only [List.flatten_cons, List.flatten_nil, List.append_nil]
            exact hfind
          constructor
          · intro id
            rw [himpl, hs]
            constructor
            · intro h; exact absurd h (by simp)
            · rintro ⟨v, hv, _⟩; exact absurd hv (by simp)
          · intro _; exact himpl
        · have hstep : findPackageVersionID reference (p :: rest) =
              findPackageVersionID reference rest := by
            simp [findPackageVersionID, h0, hfind, hlen]
          have hsstep : specFirstMatch reference (p :: rest) =
              specFirstMatch reference rest := by
            simp only [specFirstMatch, scannedPages_cons]
            rw [if_neg hlen]
            simp only [List.flatten_cons]
            exact find?_append_none _ hfind
          rw [hstep, hsstep]
          exact ih

/-- Witness for C7: in a concrete one-page listing, the tag reference
`latest` resolves to version ID 7, and an unknown reference is the
not-found error naming it. -/
theorem findPackageVersionID_scan_spec_witness :
    findPackageVersionID "latest" exVersionPages = .ok 7
    ∧ findPackageVersionID "gone" exVersionPages =
        .error (notFoundMsg "gone") :=
  ⟨((findPackageVersionID_scan_spec "latest" exVersionPages).1 7).mpr
      ⟨⟨7, "sha256:abc", ⟨⟨["latest"]⟩⟩⟩, by rfl, rfl⟩,
   (findPackageVersionID_scan_spec "gone" exVersionPages).2 (by rfl)⟩

/-- Claim C1 (modelled from the spec, see `deleteManifestModel`): with
`DisableDelete` set, `DeleteManifest` issues no DELETE request, returns
success whenever version resolution succeeds, and still propagates a
resolution failure (such as not-found). -/
theorem deleteManifest_disableDelete (repository reference : String)
    (pages : String → List (List GitHubPackageVersion))
    (deleteOutcome : String → Int → Except String Unit) :
    (deleteManifestModel true repository reference pages
        deleteOutcome).deletesIssued = []
    ∧ (∀ id, findPackageVersionID reference (pages (stripOwner repository)) =
        .ok id →
        (deleteManifestModel true repository reference pages
          deleteOutcome).result = .ok ())
    ∧ (∀ e, findPackageVersionID reference (pages (stripOwner repository)) =
        .error e →
        (deleteManifestModel true repository reference pages
          deleteOutcome).result = .error e) := by
  refine ⟨?_, ?_, ?_⟩
  · cases hf : findPackageVersionID reference (pages (stripOwner repository)) with
    | error e => simp [deleteManifestModel, hf]
    | ok id => simp [deleteManifestModel, hf]
  · intro id hid
    simp [deleteManifestModel, hid]
  · intro e he
    simp [deleteManifestModel, he]

/-- Witness for C1: with the flag set and a resolvable tag, the call
succeeds and the list of issued DELETEs is empty, even though the
delete collaborator would fail if it were ever invoked. -/
theorem deleteManifest_disableDelete_witness :
    (deleteManifestModel true "u/app" "latest" (fun _ => exVersionPages)
      (fun _ _ => .error "delete must not run")).deletesIssued = []
    ∧ (deleteManifestModel true "u/app" "latest" (fun _ => exVersionPages)
      (fun _ _ => .error "delete must not run")).result = .ok () :=
  ⟨(deleteManifest_disableDelete "u/app" "latest" (fun _ => exVersionPages)
      (fun _ _ => .error "delete must not run")).1,
   (deleteManifest_disableDelete "u/app" "latest" (fun _ => exVersionPages)
      (fun _ _ => .error "delete must not run")).2.1 7 (by rfl)⟩

/-- Claim C2 (code bug): the requests of `listPackageVersions` and
`deletePackageVersion` are built with the raw API token, but they are
sent through `gc.Client.Do` — the registry client's `Do`, not the
embedded `http.Client`'s — so `BearerAuth.Apply` overwrites the
`Authorization` header with the base64-encoded registry token before
transmission, contrary to the claim (and to the code's own comments
saying the registry auth is bypassed).  `getUserPackages` /
`getOrgPackages` do bypass it via `api.client.Client.Do` and deliver
the raw token, and registry-plane requests deliver the base64 token as
claimed. -/
theorem managementPlane_auth_overwritten :
    getHeader (listPackageVersionsRequest
        "https://api.github.com/user/packages/container/app/versions"
        "tok" none) "Authorization" = "Bearer tok"
    ∧ registryAuthToken "tok" = "dG9r"
    ∧ getHeader (listPackageVersionsDelivered
        "https://api.github.com/user/packages/container/app/versions"
        "tok" none) "Authorization" = "Bearer dG9r"
    ∧ getHeader (deletePackageVersionDelivered
        "https://api.github.com/user/packages/container/app/versions/7"
        "tok") "Authorization" = "Bearer dG9r"
    ∧ getHeader (getPackagesDelivered "https://api.github.com/user/packages"
        "tok" none) "Authorization" = "Bearer tok"
    ∧ getHeader (registryPlaneDelivered "tok"
        ⟨"GET", "https://ghcr.io/v2/app/manifests/latest", [], []⟩)
        "Authorization" = "Bearer dG9r"
    ∧ ("Bearer dG9r" : String) ≠ "Bearer tok" :=
  ⟨by decide, by decide, by decide, by decide, by decide, by decide,
   by decide⟩

end RegistryClient
